import Mathlib

/-!
Verification of the simulated-annealing TSP core.

The repository contains two parallel implementations of the same design:
the legacy one in `tsp/` (`tsp/kernels.py`, `tsp/sa.py`) working on plain
`list[int]` routes, and the newer one in `src/tsp/py/`
(`kernels.py`, `elements.py`, `simulated_annealing.py`) working on a `Route`
dataclass that wraps a `list[int]`.  Both represent a route as a list of city
indices and both kernel families share the same deterministic primitives, so a
single shallow embedding over `List Nat` covers both; where the two engines
differ (acceptance comparison, stop criterion, best-route bookkeeping) each
variant is embedded separately.

Numeric conventions: Python floats are modelled by exact rationals (every
float64 value is a rational number); `np.exp` is modelled by `Real.exp` on the
cast of the rational argument.  `np.finfo(np.float64).eps` is exactly `2⁻⁵²`.
Randomness is determinized: every random draw made by the code (the index
pairs of the move kernels, the permutations of the random-walk kernel, the
uniform variates of the Metropolis test) becomes an explicit parameter,
together with a hypothesis stating exactly the support that the corresponding
`numpy` call guarantees for the drawn value.
-/

namespace TspSA

/-- Machine epsilon `_EPS = np.finfo(np.float64).eps` (`tsp/utils.py`,
`src/tsp/utils.py`); its exact value is `2⁻⁵²`. -/
def EPS : ℚ := 1 / 2 ^ 52

/-- Tour cost (`SimulatedAnnealingTSP.dist_route` in `tsp/sa.py` and
`Cities.total_distance` in `src/tsp/py/elements.py`): the route is zipped with
itself rotated left by one position (`deque.rotate(-1)`) and the distances of
the resulting pairs are summed, closing the loop from the last city back to
the first. -/
def totalDistance (dist : ℕ → ℕ → ℚ) (r : List ℕ) : ℚ :=
  ((r.zip (r.rotate 1)).map fun p => dist p.1 p.2).sum

/-! ## Kernel deterministic primitives

`SwapKernel._sample`, `ReversionKernel._sample` and `InsertionKernel._sample`
(`src/tsp/py/kernels.py`, identical list logic in `tsp/kernels.py`) operate on
a copy of the input list, so they are pure list functions. -/

/-- Python `list.insert(j, x)`: equivalent to `l[:j] + [x] + l[j:]`
(the index is clamped by slicing semantics). -/
def pyInsert (l : List ℕ) (j : ℕ) (x : ℕ) : List ℕ :=
  l.take j ++ x :: l.drop j

/-- Python `list.pop(i)` for a valid index: returns the removed element and
the remaining list `l[:i] + l[i+1:]`. -/
def pyPop (l : List ℕ) (i : ℕ) : ℕ × List ℕ :=
  (l.getD i 0, l.take i ++ l.drop (i + 1))

/-- `SwapKernel._sample route i j`: copies the list and performs the
simultaneous assignment `new[i], new[j] = new[j], new[i]` (both right-hand
sides are read from the original list before either write). -/
def swapSampleAt (r : List ℕ) (i j : ℕ) : List ℕ :=
  (r.set i (r.getD j 0)).set j (r.getD i 0)

/-- `ReversionKernel._sample route i j`: normalizes `i, j` to
`min i j, max i j`; for `i = 0` returns `r[j::-1] + r[j+1:]`, otherwise
`r[:i] + r[j:i-1:-1] + r[j+1:]`.  The Python slices are rendered with
`take`/`drop`: `r[j::-1]` is `(r.take (j+1)).reverse`, `r[j:i-1:-1]` (for
`1 ≤ i ≤ j`) is `((r.drop i).take (j-i+1)).reverse`, and `r[j+1:]` is
`r.drop (j+1)`. -/
def revSampleAt (r : List ℕ) (i j : ℕ) : List ℕ :=
  let i' := min i j
  let j' := max i j
  if i' = 0 then (r.take (j' + 1)).reverse ++ r.drop (j' + 1)
  else r.take i' ++ ((r.drop i').take (j' - i' + 1)).reverse ++ r.drop (j' + 1)

/-- `InsertionKernel._sample route i j`:
`new_route.insert(j, new_route.pop(i))` on a copy of the input. -/
def insSampleAt (r : List ℕ) (i j : ℕ) : List ℕ :=
  pyInsert (pyPop r i).2 j (pyPop r i).1

/-- Description of the insertion move in the spec's words: remove the element
at position `i`, then insert it at position `j` of the resulting
`(N-1)`-length sequence (post-removal index semantics), stated with the
library operations `eraseIdx` and `insertIdx`. -/
def postRemovalInsert (r : List ℕ) (i j : ℕ) : List ℕ :=
  (r.eraseIdx i).insertIdx j (r.getD i 0)

/-- Description of the competing pre-removal semantics mentioned by the spec's
open question: `j` indexes the original sequence; the element is inserted
before the city that originally sat at position `j`, which after removing
position `i < j` sits at position `j - 1`. -/
def preRemovalInsert (r : List ℕ) (i j : ℕ) : List ℕ :=
  (r.eraseIdx i).insertIdx (j - 1) (r.getD i 0)

lemma insertIdx_eq_take_cons_drop (l : List ℕ) (j : ℕ) (x : ℕ) (h : j ≤ l.length) :
    l.insertIdx j x = l.take j ++ x :: l.drop j := by
  induction j generalizing l with
  | zero => simp
  | succ j ih =>
    cases l with
    | nil => simp at h
    | cons a t =>
      simp only [List.insertIdx_succ_cons, List.take_succ_cons, List.drop_succ_cons,
        List.cons_append]
      rw [ih t (by simpa using h)]

/-- C6: the reversion primitive is symmetric in its two index arguments,
rewrites the route as prefix, reversed closed sub-range
`[min i j, max i j]`, and untouched suffix, and satisfies the three edge-case
examples recorded in the spec and in the repository's test suite. -/
theorem reversion_symm_and_edges :
    (∀ (r : List ℕ) (i j : ℕ), revSampleAt r i j = revSampleAt r j i)
    ∧ (∀ (r : List ℕ) (i j : ℕ),
        revSampleAt r i j =
          r.take (min i j) ++
            ((r.drop (min i j)).take (max i j - min i j + 1)).reverse ++
            r.drop (max i j + 1))
    ∧ revSampleAt [0,1,2,3,4,5,6,7,8,9] 3 7 = [0,1,2,7,6,5,4,3,8,9]
    ∧ revSampleAt [0,1,2,3,4,5,6,7,8,9] 7 3 = [0,1,2,7,6,5,4,3,8,9]
    ∧ revSampleAt [0,1,2,3,4,5,6,7,8,9] 0 5 = [5,4,3,2,1,0,6,7,8,9]
    ∧ revSampleAt [0,1,2,3,4,5,6,7,8,9] 5 9 = [0,1,2,3,4,9,8,7,6,5] := by
  refine ⟨?_, ?_, by decide, by decide, by decide, by decide⟩
  · intro r i j
    unfold revSampleAt
    rw [Nat.min_comm i j, Nat.max_comm i j]
  · intro r i j
    unfold revSampleAt
    by_cases h : min i j = 0
    · simp [h]
    · simp [h]

/-- C10: the insertion primitive uses post-removal index semantics: the
result equals removing the element at position `i` and inserting it at
position `j` of the shortened sequence; on `[0..9]` with `(i,j) = (3,7)` this
yields `[0,1,2,4,5,6,7,3,8,9]`, which differs from the pre-removal
semantics. -/
theorem insertion_post_removal_semantics :
    (∀ (r : List ℕ) (i j : ℕ), i < r.length → j ≤ r.length - 1 →
        insSampleAt r i j = postRemovalInsert r i j)
    ∧ insSampleAt [0,1,2,3,4,5,6,7,8,9] 3 7 = [0,1,2,4,5,6,7,3,8,9]
    ∧ insSampleAt [0,1,2,3,4,5,6,7,8,9] 3 7
        ≠ preRemovalInsert [0,1,2,3,4,5,6,7,8,9] 3 7 := by
  refine ⟨?_, by decide, by decide⟩
  intro r i j hi hj
  have hlen : (r.eraseIdx i).length = r.length - 1 := by
    rw [List.length_eraseIdx_of_lt hi]
  unfold insSampleAt postRemovalInsert pyInsert pyPop
  rw [insertIdx_eq_take_cons_drop _ j _ (by rw [hlen]; exact hj),
    List.eraseIdx_eq_take_drop_succ]

/-- Witness for the universally quantified part of
`insertion_post_removal_semantics`. -/
theorem insertion_post_removal_semantics_witness :
    insSampleAt [0,1,2,3,4,5,6,7,8,9] 3 7 = postRemovalInsert [0,1,2,3,4,5,6,7,8,9] 3 7 :=
  insertion_post_removal_semantics.1 [0,1,2,3,4,5,6,7,8,9] 3 7 (by decide) (by decide)

/-! ## Mixing kernel construction

`MixingKernel.__init__` (`src/tsp/py/kernels.py`, same logic in
`tsp/kernels.py`) floors the probabilities by `_EPS * len(probs)`, normalizes
them to sum 1, sorts kernels and probabilities by descending probability
(repeatedly taking `max(candidates, key=candidates.get)` over an
insertion-ordered dict, which returns the first key attaining the maximum, so
ties keep the original input order) and precomputes the cumulative-probability
partition `[0, c₁, …, 1]`. -/

/-- One `max(candidates, key=candidates.get)` call over the remaining
(index, probability) pairs: the first pair attaining the maximal
probability. -/
def argmaxFirst : List (ℕ × ℚ) → Option (ℕ × ℚ)
  | [] => none
  | p :: rest =>
    match argmaxFirst rest with
    | none => some p
    | some q => if p.2 < q.2 then some q else some p

/-- The `while candidates:` selection loop: repeatedly pick the first
maximal pair and delete its key.  The fuel argument is the initial number of
candidates; the loop ends when the dict is empty. -/
def selectPairsAux : ℕ → List (ℕ × ℚ) → List (ℕ × ℚ)
  | 0, _ => []
  | f + 1, l =>
    match argmaxFirst l with
    | none => []
    | some c => c :: selectPairsAux f (l.eraseP (fun x => x.1 == c.1))

/-- `probs = np.asarray(probs) + _EPS * len(probs); probs = probs / np.sum(probs)`. -/
def floorNormalize (probs : List ℚ) : List ℚ :=
  let pf := probs.map (fun p => p + EPS * probs.length)
  pf.map (fun p => p / pf.sum)

/-- Running partial sums (`np.cumsum`). -/
def cumFrom (acc : ℚ) : List ℚ → List ℚ
  | [] => []
  | p :: rest => (acc + p) :: cumFrom (acc + p) rest

/-- The state a `MixingKernel` instance stores after construction: reordered
sub-kernels and probabilities, the cumulative partition
`np.concatenate([[0.], np.cumsum(probs)])`, and the remembered input length
`_len_kernels`. -/
structure MixState (α : Type) where
  kernels : List α
  probs : List ℚ
  cum : List ℚ
  lenKernels : ℕ

/-- `MixingKernel.__init__` for the already-unpacked kernel and probability
lists (the tuple-input constructor path unpacks to the same two lists). -/
def mixInit {α : Type} (kernels : List α) (probs : List ℚ) : MixState α :=
  let pn := floorNormalize probs
  let idxs := (selectPairsAux pn.length ((List.range pn.length).zip pn)).map (fun c => c.1)
  { kernels := idxs.filterMap (fun i => kernels[i]?),
    probs := idxs.filterMap (fun i => pn[i]?),
    cum := 0 :: cumFrom 0 (idxs.filterMap (fun i => pn[i]?)),
    lenKernels := kernels.length }

/-- The scan `for i in range(...): if cumsum[i] <= u < cumsum[i+1]` of
`MixingKernel._choose_kernel`: first sub-kernel whose half-open interval
contains `u`; `None` if no interval matches. -/
def chooseAux {α : Type} : List α → List ℚ → ℚ → Option α
  | k :: ks, c0 :: c1 :: cs, u =>
    if c0 ≤ u ∧ u < c1 then some k else chooseAux ks (c1 :: cs) u
  | _, _, _ => none

/-- `MixingKernel._choose_kernel`: `u == 1` short-circuits to the last
(lowest-probability) sub-kernel, otherwise the cumulative partition is
scanned. -/
def chooseKernel {α : Type} (st : MixState α) (u : ℚ) : Option α :=
  if u = 1 then st.kernels.getLast?
  else chooseAux st.kernels st.cum u

/-- The C5 instance: probabilities `[0.3, 0.2, 0.5]` for kernels labelled
`A = 0`, `B = 1`, `C = 2`. -/
def stABC : MixState ℕ := mixInit [0, 1, 2] [3/10, 2/10, 5/10]

lemma argmaxFirst_eq_none {l : List (ℕ × ℚ)} (h : argmaxFirst l = none) : l = [] := by
  cases l with
  | nil => rfl
  | cons p rest =>
    simp only [argmaxFirst] at h
    split at h
    · exact absurd h (by simp)
    · split at h <;> exact absurd h (by simp)

lemma argmaxFirst_mem : ∀ {l : List (ℕ × ℚ)} {c : ℕ × ℚ},
    argmaxFirst l = some c → c ∈ l := by
  intro l
  induction l with
  | nil => intro c h; simp [argmaxFirst] at h
  | cons p rest ih =>
    intro c h
    simp only [argmaxFirst] at h
    split at h
    · cases h; exact List.mem_cons_self _ _
    · rename_i q hq
      split at h
      · cases h; exact List.mem_cons_of_mem _ (ih hq)
      · cases h; exact List.mem_cons_self _ _

lemma argmaxFirst_le : ∀ {l : List (ℕ × ℚ)} {c : ℕ × ℚ},
    argmaxFirst l = some c → ∀ x ∈ l, x.2 ≤ c.2 := by
  intro l
  induction l with
  | nil => intro c h; simp [argmaxFirst] at h
  | cons p rest ih =>
    intro c h x hx
    simp only [argmaxFirst] at h
    split at h
    · rename_i hnone
      cases h
      rcases List.mem_cons.mp hx with rfl | hx
      · exact le_rfl
      · rw [argmaxFirst_eq_none hnone] at hx; simp at hx
    · rename_i q hq
      split at h
      · rename_i hlt
        cases h
        rcases List.mem_cons.mp hx with rfl | hx
        · exact le_of_lt hlt
        · exact ih hq x hx
      · rename_i hlt
        cases h
        rcases List.mem_cons.mp hx with rfl | hx
        · exact le_rfl
        · exact le_trans (ih hq x hx) (not_lt.mp hlt)

lemma selectPairsAux_subset : ∀ (f : ℕ) (l : List (ℕ × ℚ)), selectPairsAux f l ⊆ l := by
  intro f
  induction f with
  | zero => intro l; simp [selectPairsAux]
  | succ f ih =>
    intro l
    simp only [selectPairsAux]
    split
    · simp
    · rename_i c hc
      intro x hx
      rcases List.mem_cons.mp hx with rfl | hx
      · exact argmaxFirst_mem hc
      · exact (List.eraseP_sublist l).subset (ih _ hx)

lemma selectPairsAux_sorted : ∀ (f : ℕ) (l : List (ℕ × ℚ)),
    ((selectPairsAux f l).map (fun c => c.2)).Sorted (fun a b => a ≥ b) := by
  intro f
  induction f with
  | zero => intro l; simp [selectPairsAux]
  | succ f ih =>
    intro l
    simp only [selectPairsAux]
    split
    · simp
    · rename_i c hc
      rw [List.map_cons, List.sorted_cons]
      refine ⟨?_, ih _⟩
      intro b hb
      rcases List.mem_map.mp hb with ⟨x, hx, rfl⟩
      exact argmaxFirst_le hc x ((List.eraseP_sublist l).subset (selectPairsAux_subset f _ hx))

lemma selectPairs_filterMap (pn : List ℚ) :
    ∀ (f : ℕ) (l : List (ℕ × ℚ)), (∀ x ∈ l, pn[x.1]? = some x.2) →
      ((selectPairsAux f l).map (fun c => c.1)).filterMap (fun i => pn[i]?) =
        (selectPairsAux f l).map (fun c => c.2) := by
  intro f
  induction f with
  | zero => intro l _; simp [selectPairsAux]
  | succ f ih =>
    intro l h
    simp only [selectPairsAux]
    split
    · simp
    · rename_i c hc
      simp only [List.map_cons, List.filterMap_cons, h c (argmaxFirst_mem hc)]
      rw [ih _ (fun x hx => h x ((List.eraseP_sublist l).subset hx))]

lemma zip_range_invariant (pn : List ℚ) :
    ∀ x ∈ (List.range pn.length).zip pn, pn[x.1]? = some x.2 := by
  intro x hx
  rcases List.mem_iff_getElem.mp hx with ⟨k, hk, hget⟩
  have hklen : k < pn.length := by
    have := hk
    rw [List.length_zip, List.length_range] at this
    omega
  have : x = (k, pn[k]) := by
    rw [← hget, List.getElem_zip, List.getElem_range]
  rw [this]
  exact List.getElem?_eq_getElem hklen

lemma mixInit_probs_sorted {α : Type} (kernels : List α) (probs : List ℚ) :
    ((mixInit kernels probs).probs).Sorted (fun a b => a ≥ b) := by
  unfold mixInit
  dsimp only
  rw [selectPairs_filterMap _ _ _ (zip_range_invariant _)]
  exact selectPairsAux_sorted _ _

/-- The ordering loop's output on the floored, normalized probabilities: the
(original index, probability) pairs in the order `MixingKernel.__init__`
selects them.  `mixInit` stores exactly the probabilities (second components)
of this list and the sub-kernels looked up at its indices (first
components). -/
def mixOrder (probs : List ℚ) : List (ℕ × ℚ) :=
  selectPairsAux (floorNormalize probs).length
    ((List.range (floorNormalize probs).length).zip (floorNormalize probs))

lemma pairwise_idx_zip_range (pn : List ℚ) :
    ((List.range pn.length).zip pn).Pairwise (fun x y => x.1 < y.1) := by
  rw [List.pairwise_iff_getElem]
  intro i j hi hj hij
  rw [List.getElem_zip, List.getElem_zip]
  simpa using hij

lemma erased_tie_idx : ∀ (l : List (ℕ × ℚ)), l.Pairwise (fun x y => x.1 < y.1) →
    ∀ (c : ℕ × ℚ), argmaxFirst l = some c →
    ∀ d ∈ l.eraseP (fun x => x.1 == c.1), d.2 = c.2 → c.1 < d.1 := by
  intro l
  induction l with
  | nil => intro _ c hc; simp [argmaxFirst] at hc
  | cons p rest ih =>
    intro hsort c hc d hd hdc
    simp only [argmaxFirst] at hc
    split at hc
    · rename_i hnone
      cases hc
      have hrest : rest = [] := argmaxFirst_eq_none hnone
      subst hrest
      simp [List.eraseP_cons, beq_self_eq_true] at hd
    · rename_i q hq
      split at hc
      · rename_i hlt
        cases hc
        have hpq : p.1 < c.1 := (List.pairwise_cons.mp hsort).1 c (argmaxFirst_mem hq)
        have hbeq : (p.1 == c.1) = false := beq_eq_false_iff_ne.mpr (Nat.ne_of_lt hpq)
        rw [List.eraseP_cons, hbeq, cond_false] at hd
        rcases List.mem_cons.mp hd with rfl | hd2
        · exact absurd hdc (ne_of_lt hlt)
        · exact ih (List.pairwise_cons.mp hsort).2 c hq d hd2 hdc
      · rename_i hlt
        cases hc
        rw [List.eraseP_cons, beq_self_eq_true, cond_true] at hd
        exact (List.pairwise_cons.mp hsort).1 d hd

lemma selectPairsAux_stable : ∀ (f : ℕ) (l : List (ℕ × ℚ)),
    l.Pairwise (fun x y => x.1 < y.1) →
    (selectPairsAux f l).Pairwise
      (fun c d => d.2 < c.2 ∨ (c.2 = d.2 ∧ c.1 < d.1)) := by
  intro f
  induction f with
  | zero => intro l _; simp [selectPairsAux]
  | succ f ih =>
    intro l hsort
    simp only [selectPairsAux]
    split
    · simp
    · rename_i c hc
      rw [List.pairwise_cons]
      constructor
      · intro d hd
        have hdl2 : d ∈ l.eraseP (fun x => x.1 == c.1) := selectPairsAux_subset f _ hd
        have hdl : d ∈ l := (List.eraseP_sublist l).subset hdl2
        rcases lt_or_eq_of_le (argmaxFirst_le hc d hdl) with h | h
        · exact Or.inl h
        · exact Or.inr ⟨h.symm, erased_tie_idx l hsort c hc d hdl2 h⟩
      · exact ih _ (hsort.sublist (List.eraseP_sublist l))

/-- C5: the Mixing construction stores the floored, normalized probabilities
and their sub-kernels sorted by descending probability with ties broken by
the original input order — universally: the selection order `mixOrder` is
pairwise either strictly-descending in probability or, at equal
probabilities, ascending in original index, and the stored probabilities and
kernels are exactly its second components and the kernels looked up at its
first components — and interval selection walks the cumulative partition of
the sorted order, with `u = 1` selecting the last sub-kernel.  On input
probabilities `[0.3, 0.2, 0.5]` for kernels `A = 0`, `B = 1`, `C = 2` the
stored order is `[C, A, B]` and the five selection facts of the spec hold;
a two-kernel tie instance illustrates the tie-break. -/
theorem mixing_sorted_and_selection :
    (∀ (α : Type) (kernels : List α) (probs : List ℚ),
        ((mixInit kernels probs).probs).Sorted (fun a b => a ≥ b))
    ∧ (∀ (probs : List ℚ), (mixOrder probs).Pairwise
        (fun c d => d.2 < c.2 ∨ (c.2 = d.2 ∧ c.1 < d.1)))
    ∧ (∀ (α : Type) (kernels : List α) (probs : List ℚ),
        (mixInit kernels probs).probs = (mixOrder probs).map (fun c => c.2)
        ∧ (mixInit kernels probs).kernels =
            ((mixOrder probs).map (fun c => c.1)).filterMap (fun i => kernels[i]?))
    ∧ stABC.kernels = [2, 0, 1]
    ∧ chooseKernel stABC 0 = some 2
    ∧ chooseKernel stABC (1/4) = some 2
    ∧ chooseKernel stABC (13/20) = some 0
    ∧ chooseKernel stABC (9/10) = some 1
    ∧ chooseKernel stABC 1 = some 1
    ∧ (mixInit [7, 8] [1/2, 1/2]).kernels = [7, 8] := by
  refine ⟨fun α kernels probs => mixInit_probs_sorted kernels probs,
    fun probs => selectPairsAux_stable _ _ (pairwise_idx_zip_range _),
    ?_, ?_, ?_, ?_, ?_, ?_, ?_, ?_⟩
  · intro α kernels probs
    refine ⟨?_, rfl⟩
    show ((selectPairsAux (floorNormalize probs).length
          ((List.range (floorNormalize probs).length).zip (floorNormalize probs))).map
            (fun c => c.1)).filterMap (fun i => (floorNormalize probs)[i]?) =
        (selectPairsAux (floorNormalize probs).length
          ((List.range (floorNormalize probs).length).zip (floorNormalize probs))).map
            (fun c => c.2)
    exact selectPairs_filterMap _ _ _ (zip_range_invariant _)
  all_goals with_unfolding_all decide

/-! ## Permutation invariance of the kernel moves -/

/-- The acceptance test of the `src/tsp/py` engine
(`AbstractSimulatedAnnealing.run`, line 70): accept iff
`log_accept_prob >= 0 or rng.uniform() < np.exp(log_accept_prob)`
(strict comparison). -/
def acceptPy (lap : ℚ) (u : ℝ) : Prop := 0 ≤ lap ∨ u < Real.exp ((lap : ℚ) : ℝ)

/-- The acceptance test of the legacy `tsp/sa.py` engine (line 178): accept
iff `log_accept_prob >= 0 or rng.uniform() <= np.exp(log_accept_prob)`
(non-strict comparison). -/
def acceptSa (lap : ℚ) (u : ℝ) : Prop := 0 ≤ lap ∨ u ≤ Real.exp ((lap : ℚ) : ℝ)

/-- Configuration of `SimulatedAnnealingTSP` (`src/tsp/py/simulated_annealing.py`).
`dist` stands for `cities.total_distance`'s matrix; `kernel k r` is the route
the kernel's `sample` returns when called at iteration `k` on route `r`. -/
structure PyCfg where
  numCities : ℕ
  dist : ℕ → ℕ → ℚ
  kernel : ℕ → List ℕ → List ℕ
  n_iter : ℕ
  temperature : ℕ → ℚ
  early_stop : Bool
  stop_after : ℕ

/-- `SimulatedAnnealingTSP.acceptance_probability`: `0` when
`gap = new_val - current_val ≤ 0`, else `-gap / (temperature(k) + _EPS)`. -/
def acceptance_probability (cfg : PyCfg) (current_val new_val : ℚ) (k : ℕ) : ℚ :=
  if new_val - current_val ≤ 0 then 0
  else -(new_val - current_val) / (cfg.temperature k + EPS)

/-- `SimulatedAnnealingTSP.stop_criteria`:
`early_stop and stop_counter > stop_after`. -/
def stop_criteria (cfg : PyCfg) (stop_counter : ℕ) : Bool :=
  cfg.early_stop && decide (stop_counter > cfg.stop_after)

/-- The control state of `AbstractSimulatedAnnealing.run`, plus an `iters`
instrumentation counter recording how many loop iterations have executed
(equivalently, how many times `on_step` has fired). -/
structure PyCore where
  current_route : List ℕ
  current_val : ℚ
  best_route : List ℕ
  best_val : ℚ
  stop_counter : ℕ
  iters : ℕ

/-- The statistics fields of `SAStatsProxy` (the derived `accept_prob` series
`np.exp` of each entry of `log_acceptance_probs` is not modelled
separately). -/
structure PyStats where
  log_acceptance_probs : List ℚ
  n_accept : ℕ
  acceptance_ratios : List ℚ
  values : List ℚ

/-- One iteration `k` of `AbstractSimulatedAnnealing.run` with the
`SAStatsProxy` hooks: sample, compute the log acceptance probability, branch
on the acceptance decision (acceptance resets the rejection counter, updates
best on strict improvement, replaces current, fires `on_accept`), then fire
`on_step` with the post-decision current value. -/
def pyStep (cfg : PyCfg) (acc : ℕ → Bool) (k : ℕ) (s : PyCore × PyStats) :
    PyCore × PyStats :=
  let new_route := cfg.kernel k s.1.current_route
  let new_val := totalDistance cfg.dist new_route
  let lap := acceptance_probability cfg s.1.current_val new_val k
  if acc k then
    ({ current_route := new_route, current_val := new_val,
       best_route := if new_val < s.1.best_val then new_route else s.1.best_route,
       best_val := if new_val < s.1.best_val then new_val else s.1.best_val,
       stop_counter := 0, iters := s.1.iters + 1 },
     { log_acceptance_probs := s.2.log_acceptance_probs ++ [lap],
       n_accept := s.2.n_accept + 1,
       acceptance_ratios := s.2.acceptance_ratios ++ [((s.2.n_accept + 1 : ℕ) : ℚ) / (k : ℚ)],
       values := s.2.values ++ [new_val] })
  else
    ({ s.1 with stop_counter := s.1.stop_counter + 1, iters := s.1.iters + 1 },
     { log_acceptance_probs := s.2.log_acceptance_probs ++ [lap],
       n_accept := s.2.n_accept,
       acceptance_ratios := s.2.acceptance_ratios ++ [((s.2.n_accept : ℕ) : ℚ) / (k : ℚ)],
       values := s.2.values ++ [s.1.current_val] })

/-- The `for k in range(1, n_iter + 1)` loop with the
`if self.stop_criteria(stop_counter): break` check at the end of each
iteration. -/
def pyRunAux (cfg : PyCfg) (acc : ℕ → Bool) : ℕ → ℕ → PyCore × PyStats → PyCore × PyStats
  | 0, _, s => s
  | n + 1, k, s =>
    if stop_criteria cfg (pyStep cfg acc k s).1.stop_counter then pyStep cfg acc k s
    else pyRunAux cfg acc n (k + 1) (pyStep cfg acc k s)

/-- `initial_route`: the identity route `list(range(len(cities)))` and its
tour cost; best is initialized to it. -/
def pyInitCore (cfg : PyCfg) : PyCore :=
  { current_route := List.range cfg.numCities,
    current_val := totalDistance cfg.dist (List.range cfg.numCities),
    best_route := List.range cfg.numCities,
    best_val := totalDistance cfg.dist (List.range cfg.numCities),
    stop_counter := 0, iters := 0 }

/-- The reset statistics (`SAStatsProxy.__post_init__`). -/
def emptyStats : PyStats :=
  { log_acceptance_probs := [], n_accept := 0, acceptance_ratios := [], values := [] }

/-- `run()` of the engine (and of the proxy, whose hooks fill the statistics
component). -/
def pyRun (cfg : PyCfg) (acc : ℕ → Bool) : PyCore × PyStats :=
  pyRunAux cfg acc cfg.n_iter 1 (pyInitCore cfg, emptyStats)

/-- `SAStatsProxy.run()`: `__post_init__` resets the statistics before
delegating to the base loop, so the prior statistics are discarded. -/
def pyProxyRun (cfg : PyCfg) (acc : ℕ → Bool) (_prior : PyStats) : PyCore × PyStats :=
  pyRunAux cfg acc cfg.n_iter 1 (pyInitCore cfg, emptyStats)

/-- Ghost trace: the state after `k` iterations of the loop body, ignoring
the early-stop break (the break only truncates which prefix executes, so the
executed iterations of any run coincide with a prefix of this trace). -/
def pyGhost (cfg : PyCfg) (acc : ℕ → Bool) : ℕ → PyCore × PyStats
  | 0 => (pyInitCore cfg, emptyStats)
  | k + 1 => pyStep cfg acc (k + 1) (pyGhost cfg acc k)

/-- The log acceptance probability the engine computes at iteration `k`
(`k ≥ 1`), as a function of the oracle history. -/
def pyLap (cfg : PyCfg) (acc : ℕ → Bool) (k : ℕ) : ℚ :=
  acceptance_probability cfg (pyGhost cfg acc (k - 1)).1.current_val
    (totalDistance cfg.dist (cfg.kernel k (pyGhost cfg acc (k - 1)).1.current_route)) k

/-- The oracle `acc` together with uniform draws `u` describes a real
execution of the py engine: at every iteration the decision equals the
engine's acceptance test. -/
def PyFaithful (cfg : PyCfg) (u : ℕ → ℝ) (acc : ℕ → Bool) : Prop :=
  ∀ k, 1 ≤ k → k ≤ cfg.n_iter → (acc k = true ↔ acceptPy (pyLap cfg acc k) (u k))

/-- Configuration of the legacy `tsp/sa.py` `SimulatedAnnealingTSP`.
`dist_matrix` is the matrix the engine stores after the `__init__`
normalization; `kernel k r` is the route `self.kernel(route)` returns at
iteration `k`. -/
structure SaCfg where
  len_route : ℕ
  dist_matrix : ℕ → ℕ → ℚ
  kernel : ℕ → List ℕ → List ℕ
  n_iter : ℕ
  temp : ℕ → ℚ
  early_stop : Bool
  stop_after : ℕ

/-- `SimulatedAnnealingTSP.dist_route` over the stored matrix. -/
def saDistRoute (cfg : SaCfg) (r : List ℕ) : ℚ :=
  totalDistance cfg.dist_matrix r

/-- The run state of a fresh legacy engine (`_last_k = 0`,
`_last_route = None`): the `_best_route` dict starts at
`value = +inf, route = None`, modelled by `⊤ : WithTop ℚ` and an optional
route.  `iters` counts executed loop iterations. -/
structure SaState where
  route : List ℕ
  dist_route : ℚ
  best_route : Option (List ℕ)
  best_value : WithTop ℚ
  stop_counter : ℕ
  n_accept : ℕ
  log_accept_prob : List ℚ
  acceptance_ratios : List ℚ
  values : List ℚ
  iters : ℕ

/-- `_update_best_route(route, dist_route)`: update the best pair when the
submitted value strictly improves the stored one. -/
def saUpdateBest (s : SaState) (route : List ℕ) (d : ℚ) : SaState :=
  if (d : WithTop ℚ) < s.best_value then
    { s with best_route := some route, best_value := (d : WithTop ℚ) }
  else s

/-- The state after the pre-loop part of `run()`:
`route, dist_route = self._register_route(self._init_route())` (which appends
the cost to `_values`) followed by `self._update_best_route(route, dist_route)`. -/
def saInit (cfg : SaCfg) : SaState :=
  saUpdateBest
    { route := List.range cfg.len_route,
      dist_route := saDistRoute cfg (List.range cfg.len_route),
      best_route := none, best_value := ⊤, stop_counter := 0, n_accept := 0,
      log_accept_prob := [], acceptance_ratios := [],
      values := [saDistRoute cfg (List.range cfg.len_route)], iters := 0 }
    (List.range cfg.len_route) (saDistRoute cfg (List.range cfg.len_route))

/-- The loop body of the legacy `run()` at iteration `k` (iterations count
from `0`): increment the rejection counter, register the candidate (append
its cost to `_values`), append the log acceptance probability, then on
acceptance reset the counter, call `_update_best_route(route, dist_new_route)`
— note: with the still-current `route`, not the candidate — increment
`_n_accept` and replace the current route; finally append the acceptance
ratio `_n_accept / (k + 1)`. -/
def saStep (cfg : SaCfg) (acc : ℕ → Bool) (k : ℕ) (s : SaState) : SaState :=
  let new_route := cfg.kernel k s.route
  let d_new := saDistRoute cfg new_route
  let lap : ℚ := if d_new - s.dist_route ≤ 0 then 0
    else -(d_new - s.dist_route) / (cfg.temp k + EPS)
  let s1 := { s with stop_counter := s.stop_counter + 1,
                     values := s.values ++ [d_new],
                     log_accept_prob := s.log_accept_prob ++ [lap] }
  let s2 := if acc k then
      let sb := saUpdateBest s1 s1.route d_new
      { sb with stop_counter := 0, n_accept := sb.n_accept + 1,
                route := new_route, dist_route := d_new }
    else s1
  { s2 with acceptance_ratios := s2.acceptance_ratios ++ [((s2.n_accept : ℕ) : ℚ) / ((k + 1 : ℕ) : ℚ)],
            iters := s2.iters + 1 }

/-- Legacy early stop: `early_stop and stop_counter >= stop_after`,
checked at the end of each iteration. -/
def saStopCheck (cfg : SaCfg) (stop_counter : ℕ) : Bool :=
  cfg.early_stop && decide (stop_counter ≥ cfg.stop_after)

/-- The `for k in range(0, n_iter)` loop of a fresh legacy engine. -/
def saRunAux (cfg : SaCfg) (acc : ℕ → Bool) : ℕ → ℕ → SaState → SaState
  | 0, _, s => s
  | n + 1, k, s =>
    if saStopCheck cfg (saStep cfg acc k s).stop_counter then saStep cfg acc k s
    else saRunAux cfg acc n (k + 1) (saStep cfg acc k s)

/-- `run()` of a freshly constructed legacy engine. -/
def saRun (cfg : SaCfg) (acc : ℕ → Bool) : SaState :=
  saRunAux cfg acc cfg.n_iter 0 (saInit cfg)

/-- Ghost trace of the legacy loop body (break ignored): state before
iteration `k`. -/
def saGhost (cfg : SaCfg) (acc : ℕ → Bool) : ℕ → SaState
  | 0 => saInit cfg
  | k + 1 => saStep cfg acc k (saGhost cfg acc k)

/-- The log acceptance probability the legacy engine computes at iteration
`k` (iterations count from `0`). -/
def saLap (cfg : SaCfg) (acc : ℕ → Bool) (k : ℕ) : ℚ :=
  if saDistRoute cfg (cfg.kernel k (saGhost cfg acc k).route)
      - (saGhost cfg acc k).dist_route ≤ 0 then 0
  else -(saDistRoute cfg (cfg.kernel k (saGhost cfg acc k).route)
      - (saGhost cfg acc k).dist_route) / (cfg.temp k + EPS)

/-- The oracle `acc` with uniform draws `u` describes a real execution of the
legacy engine. -/
def SaFaithful (cfg : SaCfg) (u : ℕ → ℝ) (acc : ℕ → Bool) : Prop :=
  ∀ k, k < cfg.n_iter → (acc k = true ↔ acceptSa (saLap cfg acc k) (u k))

/-! ## C1: best-route bookkeeping -/

/-- Distance matrix for the C1 failing input.  Its maximal entry is `1`, so
the `__init__` normalization `dist_matrix /= np.max(dist_matrix)` leaves it
unchanged and the stored matrix equals this one.  The identity route
`[0,1,2]` costs `2`; the proposed route `[0,2,1]` costs `3/2`. -/
def dC1 : ℕ → ℕ → ℚ := fun i j => if i = 0 ∧ j = 1 then 1 else 1/2

/-- The C1 failing input: three cities, a kernel proposing `[0,2,1]`, one
iteration. -/
def cfgC1 : SaCfg :=
  { len_route := 3, dist_matrix := dC1, kernel := fun _ _ => [0, 2, 1],
    n_iter := 1, temp := fun _ => 1, early_stop := true, stop_after := 10000 }

/-- C1: the legacy engine violates the claim.  In a real run (the oracle is
faithful: the single iteration has `gap = -1/2 ≤ 0`, hence
`log_accept_prob = 0` and guaranteed acceptance), the accepted improving
candidate `[0,2,1]` triggers `_update_best_route(route, dist_new_route)` with
the still-current route `[0,1,2]` (sa.py line 181), so the run ends with
`best_value = 3/2` but `best_route = [0,1,2]`, whose tour cost is `2`: the
returned best cost is not the tour cost of the returned best route. -/
theorem sa_best_pairing_mismatch :
    SaFaithful cfgC1 (fun _ => 0) (fun _ => true)
    ∧ (saRun cfgC1 (fun _ => true)).best_value = ((3/2 : ℚ) : WithTop ℚ)
    ∧ (saRun cfgC1 (fun _ => true)).best_route = some [0, 1, 2]
    ∧ saDistRoute cfgC1 [0, 1, 2] = 2
    ∧ (saRun cfgC1 (fun _ => true)).best_value ≠
        ((saDistRoute cfgC1 [0, 1, 2] : ℚ) : WithTop ℚ) := by
  refine ⟨?_, by with_unfolding_all decide, by with_unfolding_all decide,
    by with_unfolding_all decide, ?_⟩
  · intro k hk
    have hn : cfgC1.n_iter = 1 := rfl
    rw [hn] at hk
    have hk0 : k = 0 := by omega
    subst hk0
    have hlap : saLap cfgC1 (fun _ => true) 0 = 0 := by with_unfolding_all decide
    rw [hlap]
    constructor
    · intro _
      exact Or.inl le_rfl
    · intro _
      rfl
  · have h1 : (saRun cfgC1 (fun _ => true)).best_value = ((3/2 : ℚ) : WithTop ℚ) := by
      with_unfolding_all decide
    have h2 : saDistRoute cfgC1 [0, 1, 2] = 2 := by with_unfolding_all decide
    rw [h1, h2]
    intro h
    exact absurd (WithTop.coe_injective h) (by norm_num)

/-! ## C4: early stopping -/

lemma pyStep_reject_proj (cfg : PyCfg) (acc : ℕ → Bool) (k : ℕ) (s : PyCore × PyStats)
    (h : acc k = false) :
    (pyStep cfg acc k s).1.stop_counter = s.1.stop_counter + 1 ∧
    (pyStep cfg acc k s).1.iters = s.1.iters + 1 ∧
    (pyStep cfg acc k s).1.current_route = s.1.current_route ∧
    (pyStep cfg acc k s).1.current_val = s.1.current_val := by
  refine ⟨?_, ?_, ?_, ?_⟩ <;> simp [pyStep, h]

lemma saStep_reject_proj (cfg : SaCfg) (acc : ℕ → Bool) (k : ℕ) (s : SaState)
    (h : acc k = false) :
    (saStep cfg acc k s).stop_counter = s.stop_counter + 1 ∧
    (saStep cfg acc k s).iters = s.iters + 1 := by
  constructor <;> simp [saStep, h]

lemma pyRunAux_allReject (cfg : PyCfg) (acc : ℕ → Bool) (hE : cfg.early_stop = true)
    (hacc : ∀ m, acc m = false) :
    ∀ (n k : ℕ) (s : PyCore × PyStats), s.1.stop_counter ≤ cfg.stop_after →
      (pyRunAux cfg acc n k s).1.iters =
        s.1.iters + min n (cfg.stop_after + 1 - s.1.stop_counter) := by
  intro n
  induction n with
  | zero => intro k s _; simp [pyRunAux]
  | succ n ih =>
    intro k s hs
    obtain ⟨hc, hi, _, _⟩ := pyStep_reject_proj cfg acc k s (hacc k)
    simp only [pyRunAux]
    by_cases hcase : s.1.stop_counter = cfg.stop_after
    · have hcrit : stop_criteria cfg (pyStep cfg acc k s).1.stop_counter = true := by
        rw [hc, hcase]
        simp [stop_criteria, hE]
      rw [hcrit]
      simp only [if_true]
      rw [hi, hcase]
      omega
    · have hlt : s.1.stop_counter < cfg.stop_after := lt_of_le_of_ne hs hcase
      have hcrit : stop_criteria cfg (pyStep cfg acc k s).1.stop_counter = false := by
        rw [hc]
        simp only [stop_criteria, hE, Bool.true_and, decide_eq_false_iff_not, not_lt]
        omega
      rw [hcrit]
      simp only [Bool.false_eq_true, if_false]
      rw [ih (k + 1) (pyStep cfg acc k s) (by rw [hc]; omega), hc, hi]
      omega

lemma saRunAux_allReject (cfg : SaCfg) (acc : ℕ → Bool) (hE : cfg.early_stop = true)
    (hacc : ∀ m, acc m = false) :
    ∀ (n k : ℕ) (s : SaState), s.stop_counter < cfg.stop_after →
      (saRunAux cfg acc n k s).iters =
        s.iters + min n (cfg.stop_after - s.stop_counter) := by
  intro n
  induction n with
  | zero => intro k s _; simp [saRunAux]
  | succ n ih =>
    intro k s hs
    obtain ⟨hc, hi⟩ := saStep_reject_proj cfg acc k s (hacc k)
    simp only [saRunAux]
    by_cases hcase : s.stop_counter + 1 = cfg.stop_after
    · have hcrit : saStopCheck cfg (saStep cfg acc k s).stop_counter = true := by
        rw [hc, hcase]
        simp [saStopCheck, hE]
      rw [hcrit]
      simp only [if_true]
      rw [hi]
      omega
    · have hlt : s.stop_counter + 1 < cfg.stop_after := by omega
      have hcrit : saStopCheck cfg (saStep cfg acc k s).stop_counter = false := by
        rw [hc]
        simp only [saStopCheck, hE, Bool.true_and, decide_eq_false_iff_not, not_le]
        omega
      rw [hcrit]
      simp only [Bool.false_eq_true, if_false]
      rw [ih (k + 1) (saStep cfg acc k s) (by rw [hc]; omega), hc, hi]
      omega

/-- Distance function for the all-reject runs: the identity route `[0,1,2]`
costs `3`, the proposed route `[0,2,1]` costs `4`. -/
def dX : ℕ → ℕ → ℚ := fun i j => if i = 0 ∧ j = 2 then 2 else 1

/-- The C4 counterexample input: `stop_after = 100`, `n_iter = 1000`, a
kernel always proposing the strictly worse route `[0,2,1]` and a custom zero
temperature, so `log_accept_prob = -2⁵²` at every iteration and the uniform
draw `9/10` always rejects. -/
def pyCfgX : PyCfg :=
  { numCities := 3, dist := dX, kernel := fun _ _ => [0, 2, 1],
    n_iter := 1000, temperature := fun _ => 0, early_stop := true,
    stop_after := 100 }

lemma pyGhost_reject_current (cfg : PyCfg) (acc : ℕ → Bool)
    (hacc : ∀ m, acc m = false) :
    ∀ k, (pyGhost cfg acc k).1.current_route = (pyInitCore cfg).current_route ∧
         (pyGhost cfg acc k).1.current_val = (pyInitCore cfg).current_val := by
  intro k
  induction k with
  | zero => exact ⟨rfl, rfl⟩
  | succ k ih =>
    obtain ⟨_, _, h3, h4⟩ :=
      pyStep_reject_proj cfg acc (k + 1) (pyGhost cfg acc k) (hacc (k + 1))
    exact ⟨h3.trans ih.1, h4.trans ih.2⟩

lemma pyLapX (k : ℕ) : pyLap pyCfgX (fun _ => false) k = -(2 ^ 52) := by
  unfold pyLap
  obtain ⟨h1, h2⟩ := pyGhost_reject_current pyCfgX (fun _ => false) (fun _ => rfl) (k - 1)
  rw [h1, h2]
  have hcand : totalDistance pyCfgX.dist (pyCfgX.kernel k (pyInitCore pyCfgX).current_route)
      = 4 := by
    show totalDistance dX [0, 2, 1] = 4
    with_unfolding_all decide
  have hinit : (pyInitCore pyCfgX).current_val = 3 := by
    show totalDistance dX (List.range 3) = 3
    with_unfolding_all decide
  rw [hcand, hinit]
  show acceptance_probability pyCfgX 3 4 k = -(2 ^ 52)
  unfold acceptance_probability
  norm_num [pyCfgX, EPS]

lemma exp_neg_big_lt : Real.exp (((-(2 ^ 52) : ℚ) : ℝ)) < 9 / 10 := by
  have h1 : ((-(2 ^ 52) : ℚ) : ℝ) ≤ -1 := by
    push_cast
    norm_num
  have h2 : Real.exp (((-(2 ^ 52) : ℚ) : ℝ)) ≤ Real.exp (-1) := Real.exp_le_exp.mpr h1
  have h3 : Real.exp (-1) < 0.3678794412 := Real.exp_neg_one_lt_d9
  have h4 : (0.3678794412 : ℝ) < 9 / 10 := by norm_num
  exact h2.trans_lt (h3.trans h4)

lemma notAcceptPyX : ¬ acceptPy (-(2 ^ 52)) (9 / 10 : ℝ) := by
  intro h
  rcases h with h | h
  · norm_num at h
  · exact absurd h (not_lt.mpr (le_of_lt exp_neg_big_lt))

lemma pyFaithfulX : PyFaithful pyCfgX (fun _ => (9 / 10 : ℝ)) (fun _ => false) := by
  intro k _ _
  constructor
  · intro h
    simp at h
  · intro h
    exact absurd (pyLapX k ▸ h) notAcceptPyX

/-- C4 counterexample: a real run of the py engine (faithful all-reject
oracle) with `stop_after = 100` and `n_iter = 1000` executes `101`
iterations, i.e. 101 consecutive rejections occur before the engine stops:
`stop_criteria` is `stop_counter > stop_after`, so the threshold being
reached does not yet stop the loop. -/
theorem py_early_stop_executes_101 :
    PyFaithful pyCfgX (fun _ => (9 / 10 : ℝ)) (fun _ => false)
    ∧ pyCfgX.stop_after = 100
    ∧ (pyRun pyCfgX (fun _ => false)).1.iters = 101 := by
  refine ⟨pyFaithfulX, rfl, ?_⟩
  have h := pyRunAux_allReject pyCfgX (fun _ => false) rfl (fun _ => rfl)
    pyCfgX.n_iter 1 (pyInitCore pyCfgX, emptyStats) (by simp [pyInitCore])
  simpa [pyRun, pyInitCore] using h

lemma saInit_stop_counter (cfg : SaCfg) : (saInit cfg).stop_counter = 0 := by
  unfold saInit saUpdateBest
  split <;> rfl

lemma saStep_counter_cases (cfg : SaCfg) (acc : ℕ → Bool) (k : ℕ) (s : SaState) :
    (saStep cfg acc k s).stop_counter = 0 ∨
    (saStep cfg acc k s).stop_counter = s.stop_counter + 1 := by
  by_cases h : acc k
  · left
    simp [saStep, h]
  · right
    simp [saStep, h]

lemma pyStep_counter_cases (cfg : PyCfg) (acc : ℕ → Bool) (k : ℕ) (s : PyCore × PyStats) :
    (pyStep cfg acc k s).1.stop_counter = 0 ∨
    (pyStep cfg acc k s).1.stop_counter = s.1.stop_counter + 1 := by
  by_cases h : acc k
  · left
    simp [pyStep, h]
  · right
    simp [pyStep, h]

lemma saRunAux_counter_le (cfg : SaCfg) (acc : ℕ → Bool) (hE : cfg.early_stop = true) :
    ∀ (n k : ℕ) (s : SaState), s.stop_counter < cfg.stop_after →
      (saRunAux cfg acc n k s).stop_counter ≤ cfg.stop_after := by
  intro n
  induction n with
  | zero =>
    intro k s hs
    simp only [saRunAux]
    omega
  | succ n ih =>
    intro k s hs
    simp only [saRunAux]
    by_cases hcrit : saStopCheck cfg (saStep cfg acc k s).stop_counter = true
    · rw [if_pos hcrit]
      rcases saStep_counter_cases cfg acc k s with h | h <;> omega
    · rw [if_neg hcrit]
      apply ih
      simp only [saStopCheck, hE, Bool.true_and, decide_eq_true_eq] at hcrit
      omega

lemma pyRunAux_counter_le (cfg : PyCfg) (acc : ℕ → Bool) (hE : cfg.early_stop = true) :
    ∀ (n k : ℕ) (s : PyCore × PyStats), s.1.stop_counter ≤ cfg.stop_after →
      (pyRunAux cfg acc n k s).1.stop_counter ≤ cfg.stop_after + 1 := by
  intro n
  induction n with
  | zero =>
    intro k s hs
    simp only [pyRunAux]
    omega
  | succ n ih =>
    intro k s hs
    simp only [pyRunAux]
    by_cases hcrit : stop_criteria cfg (pyStep cfg acc k s).1.stop_counter = true
    · rw [if_pos hcrit]
      rcases pyStep_counter_cases cfg acc k s with h | h <;> omega
    · rw [if_neg hcrit]
      apply ih
      simp only [stop_criteria, hE, Bool.true_and, decide_eq_true_eq, not_lt] at hcrit
      omega

/-- C4 (amended): with early stop enabled, the legacy engine terminates
after at most `stop_after` consecutive rejections — its rejection counter
never ends above `stop_after` (for `stop_after ≥ 1`), an all-rejecting run
executes exactly `min n_iter stop_after` iterations, and the loop stops
immediately once its criterion `stop_counter ≥ stop_after` holds — while the
py engine's criterion is `stop_counter > stop_after`, one more than the
claim states: its counter can reach `stop_after + 1`, an all-rejecting run
executes exactly `min n_iter (stop_after + 1)` iterations, and it too never
starts another iteration once its criterion held at the end of one. -/
theorem early_stop_iteration_bounds :
    (∀ (cfg : PyCfg) (acc : ℕ → Bool), cfg.early_stop = true →
      (∀ m, acc m = false) →
      (pyRun cfg acc).1.iters = min cfg.n_iter (cfg.stop_after + 1))
    ∧ (∀ (cfg : SaCfg) (acc : ℕ → Bool), cfg.early_stop = true →
        1 ≤ cfg.stop_after → (∀ m, acc m = false) →
        (saRun cfg acc).iters = min cfg.n_iter cfg.stop_after)
    ∧ (∀ (cfg : PyCfg) (acc : ℕ → Bool) (n k : ℕ) (s : PyCore × PyStats),
        stop_criteria cfg (pyStep cfg acc k s).1.stop_counter = true →
        pyRunAux cfg acc (n + 1) k s = pyStep cfg acc k s)
    ∧ (∀ (cfg : SaCfg) (acc : ℕ → Bool) (n k : ℕ) (s : SaState),
        saStopCheck cfg (saStep cfg acc k s).stop_counter = true →
        saRunAux cfg acc (n + 1) k s = saStep cfg acc k s)
    ∧ (∀ (cfg : SaCfg) (acc : ℕ → Bool), cfg.early_stop = true →
        1 ≤ cfg.stop_after → (saRun cfg acc).stop_counter ≤ cfg.stop_after)
    ∧ (∀ (cfg : PyCfg) (acc : ℕ → Bool), cfg.early_stop = true →
        (pyRun cfg acc).1.stop_counter ≤ cfg.stop_after + 1) := by
  refine ⟨?_, ?_, ?_, ?_, ?_, ?_⟩
  · intro cfg acc hE hacc
    have h := pyRunAux_allReject cfg acc hE hacc cfg.n_iter 1
      (pyInitCore cfg, emptyStats) (by simp [pyInitCore])
    simpa [pyRun, pyInitCore] using h
  · intro cfg acc hE hsa hacc
    have h := saRunAux_allReject cfg acc hE hacc cfg.n_iter 0 (saInit cfg) ?_
    · have hi : (saInit cfg).iters = 0 := by
        unfold saInit saUpdateBest
        split <;> rfl
      rw [saRun, h, hi, saInit_stop_counter]
      simp
    · rw [saInit_stop_counter]
      omega
  · intro cfg acc n k s h
    simp only [pyRunAux, h, if_true]
  · intro cfg acc n k s h
    simp only [saRunAux, h, if_true]
  · intro cfg acc hE hsa
    apply saRunAux_counter_le cfg acc hE
    rw [saInit_stop_counter]
    omega
  · intro cfg acc hE
    apply pyRunAux_counter_le cfg acc hE
    simp [pyInitCore]

def pyCfgW3 : PyCfg :=
  { numCities := 3, dist := dX, kernel := fun _ _ => [0, 2, 1],
    n_iter := 5, temperature := fun _ => 1, early_stop := true, stop_after := 0 }

def saCfgW4 : SaCfg :=
  { len_route := 3, dist_matrix := dX, kernel := fun _ _ => [0, 2, 1],
    n_iter := 5, temp := fun _ => 1, early_stop := true, stop_after := 1 }

/-- Witness for `early_stop_iteration_bounds` on small concrete
configurations. -/
theorem early_stop_iteration_bounds_witness :
    (pyRun { numCities := 3, dist := dX, kernel := fun _ _ => [0, 2, 1],
             n_iter := 5, temperature := fun _ => 0, early_stop := true,
             stop_after := 2 } (fun _ => false)).1.iters = min 5 (2 + 1)
    ∧ (saRun { len_route := 3, dist_matrix := dX, kernel := fun _ _ => [0, 2, 1],
               n_iter := 5, temp := fun _ => 0, early_stop := true,
               stop_after := 2 } (fun _ => false)).iters = min 5 2
    ∧ pyRunAux pyCfgW3 (fun _ => false) 1 1 (pyInitCore pyCfgW3, emptyStats) =
        pyStep pyCfgW3 (fun _ => false) 1 (pyInitCore pyCfgW3, emptyStats)
    ∧ saRunAux saCfgW4 (fun _ => false) 1 0 (saInit saCfgW4) =
        saStep saCfgW4 (fun _ => false) 0 (saInit saCfgW4)
    ∧ (saRun saCfgW4 (fun _ => false)).stop_counter ≤ saCfgW4.stop_after
    ∧ (pyRun pyCfgW3 (fun _ => false)).1.stop_counter ≤ pyCfgW3.stop_after + 1 :=
  ⟨early_stop_iteration_bounds.1 _ (fun _ => false) rfl (fun _ => rfl),
   early_stop_iteration_bounds.2.1 _ (fun _ => false) rfl (by norm_num) (fun _ => rfl),
   early_stop_iteration_bounds.2.2.1 pyCfgW3 (fun _ => false) 0 1
     (pyInitCore pyCfgW3, emptyStats) (by
       have h := (pyStep_reject_proj pyCfgW3 (fun _ => false) 1
         (pyInitCore pyCfgW3, emptyStats) rfl).1
       rw [stop_criteria, h]
       simp [pyInitCore, pyCfgW3]),
   early_stop_iteration_bounds.2.2.2.1 saCfgW4 (fun _ => false) 0 0
     (saInit saCfgW4) (by
       have h := (saStep_reject_proj saCfgW4 (fun _ => false) 0 (saInit saCfgW4) rfl).1
       rw [saStopCheck, h, saInit_stop_counter]
       simp [saCfgW4]),
   early_stop_iteration_bounds.2.2.2.2.1 saCfgW4 (fun _ => false) rfl (by norm_num [saCfgW4]),
   early_stop_iteration_bounds.2.2.2.2.2 pyCfgW3 (fun _ => false) rfl⟩

/-! ## C8: the statistics proxy -/

lemma pyStep_core_stats_indep (cfg : PyCfg) (acc : ℕ → Bool) (k : ℕ)
    (core : PyCore) (st st' : PyStats) :
    (pyStep cfg acc k (core, st)).1 = (pyStep cfg acc k (core, st')).1 := by
  by_cases h : acc k <;> simp [pyStep, h]

lemma pyRunAux_core_stats_indep (cfg : PyCfg) (acc : ℕ → Bool) :
    ∀ (n k : ℕ) (core : PyCore) (st st' : PyStats),
      (pyRunAux cfg acc n k (core, st)).1 = (pyRunAux cfg acc n k (core, st')).1 := by
  intro n
  induction n with
  | zero => intro k core st st'; rfl
  | succ n ih =>
    intro k core st st'
    have hcore := pyStep_core_stats_indep cfg acc k core st st'
    simp only [pyRunAux]
    by_cases hcrit : stop_criteria cfg (pyStep cfg acc k (core, st)).1.stop_counter = true
    · have hcrit2 : stop_criteria cfg (pyStep cfg acc k (core, st')).1.stop_counter = true := by
        rw [← hcore]
        exact hcrit
      rw [if_pos hcrit, if_pos hcrit2]
      exact hcore
    · have hcrit2 : ¬ stop_criteria cfg (pyStep cfg acc k (core, st')).1.stop_counter = true := by
        rw [← hcore]
        exact hcrit
      rw [if_neg hcrit, if_neg hcrit2]
      have e1 : (pyRunAux cfg acc n (k + 1) (pyStep cfg acc k (core, st))).1 =
          (pyRunAux cfg acc n (k + 1)
            ((pyStep cfg acc k (core, st)).1, (pyStep cfg acc k (core, st')).2)).1 :=
        ih (k + 1) (pyStep cfg acc k (core, st)).1 (pyStep cfg acc k (core, st)).2
          (pyStep cfg acc k (core, st')).2
      rw [e1, hcore]

lemma pyStep_stats_appends (cfg : PyCfg) (acc : ℕ → Bool) (k : ℕ) (s : PyCore × PyStats) :
    (pyStep cfg acc k s).2.log_acceptance_probs =
      s.2.log_acceptance_probs ++
        [acceptance_probability cfg s.1.current_val
          (totalDistance cfg.dist (cfg.kernel k s.1.current_route)) k]
    ∧ (pyStep cfg acc k s).2.acceptance_ratios =
        s.2.acceptance_ratios ++ [(((pyStep cfg acc k s).2.n_accept : ℕ) : ℚ) / (k : ℚ)]
    ∧ (pyStep cfg acc k s).2.values =
        s.2.values ++ [(pyStep cfg acc k s).1.current_val] := by
  by_cases h : acc k <;> refine ⟨?_, ?_, ?_⟩ <;> simp [pyStep, h]

lemma pyRunAux_stats_lengths (cfg : PyCfg) (acc : ℕ → Bool) :
    ∀ (n k : ℕ) (s : PyCore × PyStats),
      s.2.log_acceptance_probs.length = s.1.iters →
      s.2.acceptance_ratios.length = s.1.iters →
      s.2.values.length = s.1.iters →
      (pyRunAux cfg acc n k s).2.log_acceptance_probs.length =
          (pyRunAux cfg acc n k s).1.iters
      ∧ (pyRunAux cfg acc n k s).2.acceptance_ratios.length =
          (pyRunAux cfg acc n k s).1.iters
      ∧ (pyRunAux cfg acc n k s).2.values.length = (pyRunAux cfg acc n k s).1.iters := by
  intro n
  induction n with
  | zero => intro k s h1 h2 h3; exact ⟨h1, h2, h3⟩
  | succ n ih =>
    intro k s h1 h2 h3
    have hstep : (pyStep cfg acc k s).2.log_acceptance_probs.length =
        (pyStep cfg acc k s).1.iters
        ∧ (pyStep cfg acc k s).2.acceptance_ratios.length = (pyStep cfg acc k s).1.iters
        ∧ (pyStep cfg acc k s).2.values.length = (pyStep cfg acc k s).1.iters := by
      by_cases h : acc k <;>
        refine ⟨?_, ?_, ?_⟩ <;> simp [pyStep, h, h1, h2, h3]
    simp only [pyRunAux]
    by_cases hcrit : stop_criteria cfg (pyStep cfg acc k s).1.stop_counter = true
    · rw [if_pos hcrit]
      exact hstep
    · rw [if_neg hcrit]
      exact ih (k + 1) (pyStep cfg acc k s) hstep.1 hstep.2.1 hstep.2.2

/-- C8 (amended): `SAStatsProxy.run()` resets the statistics before
delegating; every iteration appends exactly one entry to each of the three
series — the log acceptance probability, the running ratio
`n_accept / k`, and the engine's *current* (post-decision) value, i.e. the
candidate cost on acceptance but the retained current cost on rejection —
and the statistics never influence the control path. -/
theorem stats_proxy_behaviour :
    (∀ (cfg : PyCfg) (acc : ℕ → Bool) (prior : PyStats),
        pyProxyRun cfg acc prior = pyProxyRun cfg acc emptyStats)
    ∧ (∀ (cfg : PyCfg) (acc : ℕ → Bool) (k : ℕ) (s : PyCore × PyStats),
        (pyStep cfg acc k s).2.log_acceptance_probs =
          s.2.log_acceptance_probs ++
            [acceptance_probability cfg s.1.current_val
              (totalDistance cfg.dist (cfg.kernel k s.1.current_route)) k]
        ∧ (pyStep cfg acc k s).2.acceptance_ratios =
            s.2.acceptance_ratios ++ [(((pyStep cfg acc k s).2.n_accept : ℕ) : ℚ) / (k : ℚ)]
        ∧ (pyStep cfg acc k s).2.values =
            s.2.values ++ [(pyStep cfg acc k s).1.current_val])
    ∧ (∀ (cfg : PyCfg) (acc : ℕ → Bool),
        (pyRun cfg acc).2.log_acceptance_probs.length = (pyRun cfg acc).1.iters
        ∧ (pyRun cfg acc).2.acceptance_ratios.length = (pyRun cfg acc).1.iters
        ∧ (pyRun cfg acc).2.values.length = (pyRun cfg acc).1.iters)
    ∧ (∀ (cfg : PyCfg) (acc : ℕ → Bool) (n k : ℕ) (core : PyCore) (st st' : PyStats),
        (pyRunAux cfg acc n k (core, st)).1 = (pyRunAux cfg acc n k (core, st')).1) := by
  refine ⟨fun _ _ _ => rfl, pyStep_stats_appends, ?_, pyRunAux_core_stats_indep⟩
  intro cfg acc
  exact pyRunAux_stats_lengths cfg acc cfg.n_iter 1 (pyInitCore cfg, emptyStats) rfl rfl rfl

/-- The C8 counterexample input: one iteration of the all-reject scenario. -/
def pyCfgY : PyCfg :=
  { numCities := 3, dist := dX, kernel := fun _ _ => [0, 2, 1],
    n_iter := 1, temperature := fun _ => 0, early_stop := true,
    stop_after := 100 }

/-- C8 counterexample: in a real run of the proxy (faithful all-reject
oracle), the single iteration proposes a candidate of cost `4`, rejects it,
and records the value `3` — the retained current cost, not the raw candidate
cost the claim describes. -/
lemma pyLapY : pyLap pyCfgY (fun _ => false) 1 = -(2 ^ 52) := by
  unfold pyLap
  have hcand : totalDistance pyCfgY.dist
      (pyCfgY.kernel 1 (pyGhost pyCfgY (fun _ => false) (1 - 1)).1.current_route) = 4 := by
    show totalDistance dX [0, 2, 1] = 4
    with_unfolding_all decide
  have hinit : (pyGhost pyCfgY (fun _ => false) (1 - 1)).1.current_val = 3 := by
    show totalDistance dX (List.range 3) = 3
    with_unfolding_all decide
  rw [hcand, hinit]
  show acceptance_probability pyCfgY 3 4 1 = -(2 ^ 52)
  unfold acceptance_probability
  norm_num [pyCfgY, EPS]

theorem proxy_value_records_current :
    PyFaithful pyCfgY (fun _ => (9 / 10 : ℝ)) (fun _ => false)
    ∧ (pyRun pyCfgY (fun _ => false)).2.values = [3]
    ∧ totalDistance pyCfgY.dist (pyCfgY.kernel 1 (List.range 3)) = 4
    ∧ (3 : ℚ) ≠ 4 := by
  refine ⟨?_, by with_unfolding_all decide, by with_unfolding_all decide, by norm_num⟩
  intro k hk1 hk2
  have hn : pyCfgY.n_iter = 1 := rfl
  rw [hn] at hk2
  have hk : k = 1 := by omega
  subst hk
  constructor
  · intro h
    simp at h
  · intro h
    exact absurd (pyLapY ▸ h) notAcceptPyX

/-! ## C2: the acceptance rule -/

/-- The C2 counterexample input: temperature `1 - _EPS`, so the single
iteration has `gap = 1` and `log_accept_prob = -1` exactly. -/
def cfgC2 : SaCfg :=
  { len_route := 3, dist_matrix := dX, kernel := fun _ _ => [0, 2, 1],
    n_iter := 1, temp := fun _ => 1 - EPS, early_stop := true,
    stop_after := 10000 }

lemma saLapC2 : saLap cfgC2 (fun _ => true) 0 = -1 := by
  unfold saLap
  have hcand : saDistRoute cfgC2 (cfgC2.kernel 0 (saGhost cfgC2 (fun _ => true) 0).route) = 4 := by
    show saDistRoute cfgC2 [0, 2, 1] = 4
    with_unfolding_all decide
  have hinit : (saGhost cfgC2 (fun _ => true) 0).dist_route = 3 := by
    show (saInit cfgC2).dist_route = 3
    with_unfolding_all decide
  rw [hcand, hinit]
  norm_num [cfgC2, EPS]

/-- C2 counterexample: a real run of the legacy engine whose uniform draw is
exactly `exp(log_accept_prob)` accepts the candidate (sa.py compares with
`<=`), although the claim's strict rule rejects there: the claimed
"accepted iff `lap ≥ 0` or draw `< exp(lap)`" is false of `tsp/sa.py`. -/
theorem sa_accepts_at_exp_boundary :
    SaFaithful cfgC2 (fun _ => Real.exp (((-1 : ℚ) : ℝ))) (fun _ => true)
    ∧ (saRun cfgC2 (fun _ => true)).n_accept = 1
    ∧ saLap cfgC2 (fun _ => true) 0 = -1
    ∧ ¬ acceptPy (saLap cfgC2 (fun _ => true) 0)
        (Real.exp (((-1 : ℚ) : ℝ))) := by
  refine ⟨?_, by with_unfolding_all decide, saLapC2, ?_⟩
  · intro k hk
    have hn : cfgC2.n_iter = 1 := rfl
    rw [hn] at hk
    have hk0 : k = 0 := by omega
    subst hk0
    rw [saLapC2]
    constructor
    · intro _
      exact Or.inr le_rfl
    · intro _
      rfl
  · rw [saLapC2]
    intro h
    rcases h with h | h
    · norm_num at h
    · exact absurd h (lt_irrefl _)

/-- C2 (amended): the log acceptance probability is `0` for `gap ≤ 0` and
`-gap / (temperature k + eps)` otherwise; whenever the temperature is
non-negative it is `≤ 0`, so `exp(log_accept_prob)` lies in `(0, 1]`; and the
py engine accepts exactly when `lap ≥ 0` or the draw is strictly below
`exp(lap)` (the legacy engine differs only in using a non-strict
comparison). -/
theorem acceptance_formula_and_bound :
    ∀ (cfg : PyCfg) (cv nv : ℚ) (k : ℕ), 0 ≤ cfg.temperature k →
      (nv - cv ≤ 0 → acceptance_probability cfg cv nv k = 0)
      ∧ (0 < nv - cv →
          acceptance_probability cfg cv nv k = -(nv - cv) / (cfg.temperature k + EPS))
      ∧ acceptance_probability cfg cv nv k ≤ 0
      ∧ 0 < Real.exp ((acceptance_probability cfg cv nv k : ℚ) : ℝ)
      ∧ Real.exp ((acceptance_probability cfg cv nv k : ℚ) : ℝ) ≤ 1
      ∧ (∀ u : ℝ, acceptPy (acceptance_probability cfg cv nv k) u ↔
          0 ≤ acceptance_probability cfg cv nv k ∨
            u < Real.exp ((acceptance_probability cfg cv nv k : ℚ) : ℝ)) := by
  intro cfg cv nv k hT
  have hEPS : (0 : ℚ) < EPS := by norm_num [EPS]
  have hlap : acceptance_probability cfg cv nv k ≤ 0 := by
    unfold acceptance_probability
    split
    · exact le_rfl
    · rename_i h
      have hgap : 0 < nv - cv := not_le.mp h
      exact le_of_lt (div_neg_of_neg_of_pos (neg_neg_of_pos hgap)
        (add_pos_of_nonneg_of_pos hT hEPS))
  refine ⟨?_, ?_, hlap, Real.exp_pos _, ?_, fun u => Iff.rfl⟩
  · intro h
    unfold acceptance_probability
    rw [if_pos h]
  · intro h
    unfold acceptance_probability
    rw [if_neg (not_le.mpr h)]
  · rw [Real.exp_le_one_iff]
    exact_mod_cast hlap

/-- Witness for `acceptance_formula_and_bound` at a zero-temperature
configuration. -/
theorem acceptance_formula_and_bound_witness :
    ((1 : ℚ) - 0 ≤ 0 → acceptance_probability pyCfgX 0 1 5 = 0)
    ∧ (0 < (1 : ℚ) - 0 →
        acceptance_probability pyCfgX 0 1 5 = -((1 : ℚ) - 0) / (pyCfgX.temperature 5 + EPS))
    ∧ acceptance_probability pyCfgX 0 1 5 ≤ 0
    ∧ 0 < Real.exp ((acceptance_probability pyCfgX 0 1 5 : ℚ) : ℝ)
    ∧ Real.exp ((acceptance_probability pyCfgX 0 1 5 : ℚ) : ℝ) ≤ 1
    ∧ (∀ u : ℝ, acceptPy (acceptance_probability pyCfgX 0 1 5) u ↔
        0 ≤ acceptance_probability pyCfgX 0 1 5 ∨
          u < Real.exp ((acceptance_probability pyCfgX 0 1 5 : ℚ) : ℝ)) :=
  acceptance_formula_and_bound pyCfgX 0 1 5 (by norm_num [pyCfgX])

/-! ## C7: frame properties and the in-place matrix normalization

`SimulatedAnnealingTSP.__init__` (`tsp/sa.py` lines 52-61) stores
`np.asarray(dist_matrix)` — for a float ndarray input `np.asarray` returns
the same buffer, not a copy — and then executes the in-place division
`self.dist_matrix /= np.max(self.dist_matrix)`.  After construction the
buffer referenced by the engine (and, through the alias, by the caller)
holds the entrywise-normalized values.  The kernel `_sample` bodies, in
contrast, build a fresh list (`copy.copy` or slice concatenation) and never
write the caller's route, which the statement-level state-passing
translations below record: the second component is the caller's buffer after
the call. -/

def matrixEntries (n : ℕ) (d : ℕ → ℕ → ℚ) : List ℚ :=
  ((List.range n).map (fun i => (List.range n).map (fun j => d i j))).flatten

/-- `np.max` of a flattened nonempty entry list. -/
def npMax : List ℚ → ℚ
  | [] => 0
  | x :: xs => xs.foldl max x

/-- The matrix held in the engine's (shared) buffer after `__init__`. -/
def saInitStoredMatrix (n : ℕ) (d : ℕ → ℕ → ℚ) : ℕ → ℕ → ℚ :=
  fun i j => d i j / npMax (matrixEntries n d)

def swapSampleCall (r : List ℕ) (i j : ℕ) : List ℕ × List ℕ :=
  (swapSampleAt r i j, r)

def revSampleCall (r : List ℕ) (i j : ℕ) : List ℕ × List ℕ :=
  (revSampleAt r i j, r)

def insSampleCall (r : List ℕ) (i j : ℕ) : List ℕ × List ℕ :=
  (insSampleAt r i j, r)

/-- The supplied matrix of the C7 counterexample: all off-diagonal distances
are `2`, so its maximal entry is `2`. -/
def d7 : ℕ → ℕ → ℚ := fun i j => if i = j then 0 else 2

/-- C7 counterexample: after constructing a legacy engine on the 2×2 matrix
`[[0,2],[2,0]]`, the matrix buffer the engine references holds `1` at entry
`(0,1)` instead of the supplied `2`: the distance matrix is mutated (in
place, by the `/= np.max` normalization) after it is supplied. -/
theorem sa_init_mutates_supplied_matrix :
    saInitStoredMatrix 2 d7 0 1 = 1
    ∧ d7 0 1 = 2
    ∧ saInitStoredMatrix 2 d7 0 1 ≠ d7 0 1 := by
  refine ⟨?_, by norm_num [d7], ?_⟩ <;> with_unfolding_all decide

/-- C7 (amended): every kernel `_sample` call leaves the caller's route
buffer unchanged, and the engine's stored matrix coincides with the supplied
one exactly in the already-normalized case `np.max = 1` — in general
`__init__` overwrites the (shared) buffer with the normalized entries. -/
theorem kernel_frame_and_matrix_normalization :
    (∀ (r : List ℕ) (i j : ℕ),
        (swapSampleCall r i j).2 = r ∧ (revSampleCall r i j).2 = r ∧
          (insSampleCall r i j).2 = r)
    ∧ (∀ (n : ℕ) (d : ℕ → ℕ → ℚ) (i j : ℕ),
        npMax (matrixEntries n d) = 1 → saInitStoredMatrix n d i j = d i j) := by
  refine ⟨fun r i j => ⟨rfl, rfl, rfl⟩, ?_⟩
  intro n d i j h
  unfold saInitStoredMatrix
  rw [h, div_one]

/-- Witness for `kernel_frame_and_matrix_normalization`: the C1 matrix has
maximal entry `1`, so the stored matrix keeps the supplied entries. -/
theorem kernel_frame_and_matrix_normalization_witness :
    (swapSampleCall [3, 1, 2] 1 2).2 = [3, 1, 2]
    ∧ saInitStoredMatrix 3 dC1 0 1 = dC1 0 1 :=
  ⟨(kernel_frame_and_matrix_normalization.1 [3, 1, 2] 1 2).1,
   kernel_frame_and_matrix_normalization.2 3 dC1 0 1 (by with_unfolding_all decide)⟩

/-! ## C9: kernels on too-short routes

`rng.choice(len(route)-1, size=2, replace=False)` raises `ValueError` both
for a non-positive population and for a sample larger than the population,
i.e. exactly when `len(route) - 1 < 2`.  `RandomWalkKernel.sample` instead
draws `choice(len-1, size=len-1, replace=False)`, which for `len = 1` is an
empty draw (no error) whose rebuilt candidate always equals the input, so the
retry loop never terminates; only `len = 0` raises (negative population with
nonzero size). -/

inductive KernelErr : Type where
  | valueError : KernelErr
deriving DecidableEq

/-- `SwapKernel.sample`: validate the index draw, then apply the primitive at
the drawn pair. -/
def swapKernelSample (r : List ℕ) (i j : ℕ) : Except KernelErr (List ℕ) :=
  if r.length < 3 then Except.error KernelErr.valueError
  else Except.ok (swapSampleAt r i j)

/-- `ReversionKernel.sample`. -/
def revKernelSample (r : List ℕ) (i j : ℕ) : Except KernelErr (List ℕ) :=
  if r.length < 3 then Except.error KernelErr.valueError
  else Except.ok (revSampleAt r i j)

/-- `InsertionKernel.sample`. -/
def insKernelSample (r : List ℕ) (i j : ℕ) : Except KernelErr (List ℕ) :=
  if r.length < 3 then Except.error KernelErr.valueError
  else Except.ok (insSampleAt r i j)

/-- The retry loop of `RandomWalkKernel.sample` with its error case:
`none` means the loop is still running after the given number of draws. -/
def rwAux (perms : ℕ → List ℕ) (r : List ℕ) : ℕ → List ℕ → Option (Except KernelErr (List ℕ))
  | 0, cur => if cur ≠ r then some (Except.ok cur) else none
  | f + 1, cur =>
    if cur ≠ r then some (Except.ok cur)
    else if r.length = 0 then some (Except.error KernelErr.valueError)
    else rwAux perms r f (r.take 1 ++ (perms f).map (fun idx => r.getD idx 0))

/-- `RandomWalkKernel.sample` starting from the fresh copy of the input. -/
def randomWalkSample (perms : ℕ → List ℕ) (fuel : ℕ) (r : List ℕ) :
    Option (Except KernelErr (List ℕ)) :=
  rwAux perms r fuel r

/-- The retry loop never returns, for any number of draws. -/
def rwDiverges (perms : ℕ → List ℕ) (r : List ℕ) : Prop :=
  ∀ fuel, rwAux perms r fuel r = none

lemma rwAux_single_none (c : ℕ) (perms : ℕ → List ℕ)
    (hp : ∀ m, (perms m).Perm (List.range' 1 0)) : rwDiverges perms [c] := by
  intro fuel
  induction fuel with
  | zero => simp [rwAux]
  | succ f ih =>
    have hperm : perms f = [] := (hp f).eq_nil
    simp only [rwAux, ne_eq, not_true_eq_false, if_false, List.length_singleton,
      if_neg (by norm_num : ¬ (1 : ℕ) = 0)]
    rw [hperm]
    simpa using ih

/-- C9 (amended): the swap, reversion and insertion kernels fail with
`ValueError` whenever `N < 3` (in particular for `N < 2`) and succeed for
`N ≥ 3`; the random-walk kernel fails only at `N = 0`, while at `N = 1` its
retry loop never terminates: it does not fail. -/
theorem short_route_error_behaviour :
    (∀ (r : List ℕ) (i j : ℕ), r.length < 3 →
        swapKernelSample r i j = Except.error KernelErr.valueError
        ∧ revKernelSample r i j = Except.error KernelErr.valueError
        ∧ insKernelSample r i j = Except.error KernelErr.valueError)
    ∧ (∀ (r : List ℕ) (i j : ℕ), 3 ≤ r.length →
        swapKernelSample r i j = Except.ok (swapSampleAt r i j)
        ∧ revKernelSample r i j = Except.ok (revSampleAt r i j)
        ∧ insKernelSample r i j = Except.ok (insSampleAt r i j))
    ∧ (∀ (perms : ℕ → List ℕ) (fuel : ℕ),
        rwAux perms [] (fuel + 1) [] = some (Except.error KernelErr.valueError))
    ∧ (∀ (c : ℕ) (perms : ℕ → List ℕ),
        (∀ m, (perms m).Perm (List.range' 1 0)) → rwDiverges perms [c]) := by
  refine ⟨?_, ?_, ?_, rwAux_single_none⟩
  · intro r i j h
    exact ⟨if_pos h, if_pos h, if_pos h⟩
  · intro r i j h
    have hn : ¬ r.length < 3 := not_lt.mpr h
    exact ⟨if_neg hn, if_neg hn, if_neg hn⟩
  · intro perms fuel
    simp [rwAux]

/-- Witness for `short_route_error_behaviour` at concrete routes. -/
theorem short_route_error_behaviour_witness :
    swapKernelSample [0] 1 2 = Except.error KernelErr.valueError
    ∧ swapKernelSample [0, 1, 2] 1 2 = Except.ok (swapSampleAt [0, 1, 2] 1 2)
    ∧ rwAux (fun _ => []) [] 1 [] = some (Except.error KernelErr.valueError)
    ∧ rwDiverges (fun _ => []) [7] :=
  ⟨(short_route_error_behaviour.1 [0] 1 2 (by norm_num)).1,
   (short_route_error_behaviour.2.1 [0, 1, 2] 1 2 (by norm_num)).1,
   short_route_error_behaviour.2.2.1 (fun _ => []) 0,
   short_route_error_behaviour.2.2.2 7 (fun _ => []) (fun m => by simp)⟩

/-- C9 counterexample: on the length-one route `[5]` the random-walk kernel
neither returns nor raises, for any number of retry draws — contradicting
the claim that every kernel variant fails with an error for `N < 2`. -/
theorem randomwalk_length_one_no_error :
    rwDiverges (fun _ => []) [5]
    ∧ ∀ fuel, randomWalkSample (fun _ => []) fuel [5] ≠
        some (Except.error KernelErr.valueError) := by
  have hdiv : rwDiverges (fun _ => []) [5] :=
    rwAux_single_none 5 (fun _ => []) (fun m => by simp)
  refine ⟨hdiv, ?_⟩
  intro fuel h
  rw [randomWalkSample, hdiv fuel] at h
  cases h
